import Mathlib

/-!
# Shallow embedding of `event_emitter_rs` (src/src/lib.rs)

The crate stores listeners in `HashMap<String, Vec<Listener>>`.  We embed the
map as an association list `List (String × List Listener)` whose keys are
distinct (as in a `HashMap`); the operations mirror the Rust methods
`EventEmitter::on_limited`, `EventEmitter::emit`, `EventEmitter::remove_listener`,
`EventEmitter::on` and `EventEmitter::once`.

Modelling decisions:
* `Listener.id` is a `Nat`.  In Rust the id is `Uuid::new_v4().to_string()`;
  only equality of ids is ever used, and the v4 generator is modelled as a
  fresh-id supply (a counter threaded through `runOps`).
* a listener's callback is `Arc<dyn Fn(Vec<u8>)>`; the observable effect of
  `emit` is which callback is spawned with which byte payload, so `emit`
  returns one handle `(listener.id, cloned bytes)` per spawned thread, in
  spawn order (the Rust `Vec<JoinHandle<()>>` has one entry per spawn in the
  same order).
* `bincode::serialize(&value)` is fallible; `emit` receives its outcome as
  `enc : Option Bytes` (the encoding depends only on `value`, never on the
  registry).  The `.unwrap()` panic is modelled as `Except.error ()`; the
  panic happens before any mutation of the registry, so `emit` returns the
  untouched state alongside the error.
* `u64` limits become `Nat`; the source only ever computes `limit - 1` under
  the guard `limit != 0`, so no wrap-around can occur and `Nat` subtraction
  is exact.
-/

namespace EventEmitterRs

/-- Payload bytes, embedding `Vec<u8>`. -/
abbrev Bytes := List Nat

/-- Embeds `struct Listener { callback, limit: Option<u64>, id: String }`.
The callback itself is identified by the listener id (see module docstring);
`limit` is the optional remaining-invocation counter. -/
structure Listener where
  id : Nat
  limit : Option Nat
deriving DecidableEq, Repr

/-- Embeds `struct EventEmitter { pub listeners: HashMap<String, Vec<Listener>> }`,
with the hash map embedded as an association list with distinct keys. -/
structure EventEmitter where
  listeners : List (String × List Listener)
deriving DecidableEq, Repr

/-- Embeds `EventEmitter::new()`: the empty registry. -/
def EventEmitter.new : EventEmitter := ⟨[]⟩

/-- Lookup `self.listeners.get(event)` on the association list: first matching key. -/
def getBucket : List (String × List Listener) → String → Option (List Listener)
  | [], _ => none
  | (k, v) :: rest, event => if k = event then some v else getBucket rest event

/-- Replace the bucket stored under `event` (used to render the in-place
mutation performed through `get_mut` in `emit`). Leaves the map unchanged when
the key is absent. -/
def setBucket : List (String × List Listener) → String → List Listener →
    List (String × List Listener)
  | [], _, _ => []
  | (k, v) :: rest, event, b =>
    if k = event then (k, b) :: rest else (k, v) :: setBucket rest event b

/-- The registration step of `on_limited`:
`match self.listeners.get_mut(event) { Some(cbs) => cbs.push(listener),
None => self.listeners.insert(event, vec![listener]) }`.
On the association list: append to the first bucket with this key, or add a
fresh `(event, [listener])` entry when the key is absent. -/
def insertListener : List (String × List Listener) → String → Listener →
    List (String × List Listener)
  | [], event, l => [(event, [l])]
  | (k, v) :: rest, event, l =>
    if k = event then (k, v ++ [l]) :: rest
    else (k, v) :: insertListener rest event l

/-- Embeds `EventEmitter::on_limited(event, limit, callback)`.  The fresh id drawn
from `Uuid::new_v4()` is passed in explicitly as `id`. -/
def on_limited (self : EventEmitter) (event : String) (limit : Option Nat)
    (id : Nat) : EventEmitter :=
  ⟨insertListener self.listeners event ⟨id, limit⟩⟩

/-- Embeds `EventEmitter::on(event, callback)`, which delegates to
`on_limited(event, None, callback)`. -/
def «on» (self : EventEmitter) (event : String) (id : Nat) : EventEmitter :=
  on_limited self event none id

/-- Embeds `EventEmitter::once(event, callback)`, which delegates to
`on_limited(event, Some(1), callback)`. -/
def once (self : EventEmitter) (event : String) (id : Nat) : EventEmitter :=
  on_limited self event (some 1) id

/-- The `for (index, listener) in listeners.iter_mut().enumerate()` loop body
of `emit`, started at position `index`.  Returns the bucket after the in-place
`listener.limit` updates, the `listeners_to_remove` indices (in increasing
order, as pushed), and the handles pushed onto `callback_handlers`
(`(listener.id, cloned_bytes)` per spawned callback, in spawn order). -/
def emitLoop : List Listener → Nat → Bytes →
    List Listener × List Nat × List (Nat × Bytes)
  | [], _, _ => ([], [], [])
  | l :: rest, index, bytes =>
    let out := emitLoop rest (index + 1) bytes
    match l.limit with
    | none => (l :: out.1, out.2.1, (l.id, bytes) :: out.2.2)
    | some limit =>
      if limit ≠ 0 then
        (⟨l.id, some (limit - 1)⟩ :: out.1, out.2.1, (l.id, bytes) :: out.2.2)
      else
        (l :: out.1, index :: out.2.1, out.2.2)

/-- Embeds `Vec::remove(index)` (identity when the index is out of range; `emit` only
removes in-range indices). -/
def removeAt : List Listener → Nat → List Listener
  | [], _ => []
  | _ :: rest, 0 => rest
  | l :: rest, Nat.succ i => l :: removeAt rest i

/-- Embeds `for index in listeners_to_remove.into_iter().rev() { listeners.remove(index) }`:
remove the collected indices from last to first. -/
def removeIndicesRev (ls : List Listener) : List Nat → List Listener
  | [] => ls
  | i :: rest => removeAt (removeIndicesRev ls rest) i

/-- Embeds `EventEmitter::emit(event, value)`.
`enc` is the outcome of `bincode::serialize(&value)` (a function of `value`
alone).  Returns the registry after the call together with either the handle
list or the `.unwrap()` panic (`Except.error ()`); the panic fires before any
mutation, hence the returned registry is the input one in that case. -/
def emit (self : EventEmitter) (event : String) (enc : Option Bytes) :
    EventEmitter × Except Unit (List (Nat × Bytes)) :=
  match getBucket self.listeners event with
  | none => (self, Except.ok [])
  | some ls =>
    match enc with
    | none => (self, Except.error ())
    | some bytes =>
      let out := emitLoop ls 0 bytes
      (⟨setBucket self.listeners event (removeIndicesRev out.1 out.2.1)⟩,
        Except.ok out.2.2)

/-- Inner scan of `remove_listener` for one bucket:
`event_listeners.iter().position(|l| l.id == id)` followed by
`event_listeners.remove(index)`.  `none` when the id is absent. -/
def removeFromBucket : List Listener → Nat → Option (List Listener)
  | [], _ => none
  | l :: rest, id =>
    if l.id = id then some rest
    else (removeFromBucket rest id).map (l :: ·)

/-- Bucket scan of `remove_listener` over `self.listeners.iter_mut()`:
the first bucket containing the id is rewritten, the rest untouched. -/
def removeListenerAux : List (String × List Listener) → Nat →
    Option (List (String × List Listener))
  | [], _ => none
  | (k, v) :: rest, id =>
    match removeFromBucket v id with
    | some v2 => some ((k, v2) :: rest)
    | none => (removeListenerAux rest id).map ((k, v) :: ·)

/-- Embeds `EventEmitter::remove_listener(id)`: `Some(id)` and the shrunken registry
when a listener with this id was found, otherwise `None` with the registry
unchanged. -/
def remove_listener (self : EventEmitter) (id : Nat) :
    EventEmitter × Option Nat :=
  match removeListenerAux self.listeners id with
  | some m => (⟨m⟩, some id)
  | none => (self, none)

/-! ## Derived characterisations and observation functions -/

/-- Effect of one `emit` pass on a single listener that gets kept:
`None` stays, `Some(limit)` with `limit != 0` becomes `Some(limit - 1)`,
`Some(0)` (which `emit` removes) is returned unchanged. -/
def decListener (l : Listener) : Listener :=
  match l.limit with
  | none => l
  | some m => if m ≠ 0 then ⟨l.id, some (m - 1)⟩ else l

/-- Bucket contents after one dispatch pass, as proved in `emitLoop_spec`:
the `Some(0)` entries are dropped and the survivors are decremented in place,
keeping their relative order. -/
def emitBucket (ls : List Listener) : List Listener :=
  (ls.filter fun l => l.limit ≠ some 0).map decListener

/-- Handles returned by one dispatch pass, as proved in `emitLoop_spec`: one
`(id, bytes)` per listener whose counter is not `Some(0)`, in bucket order. -/
def emitHandles (ls : List Listener) (b : Bytes) : List (Nat × Bytes) :=
  (ls.filter fun l => l.limit ≠ some 0).map fun l => (l.id, b)

/-- Run `k` successive `emit` calls on the same event with the same (always
encodable) payload, concatenating the returned handles in order. -/
def emitRun : Nat → EventEmitter → String → Bytes →
    EventEmitter × List (Nat × Bytes)
  | 0, s, _, _ => (s, [])
  | Nat.succ k, s, e, b =>
    let out := emit s e (some b)
    let hs := match out.2 with
      | Except.ok hs => hs
      | Except.error _ => []
    let rest := emitRun k out.1 e b
    (rest.1, hs ++ rest.2)

/-- Number of entries in a bucket carrying the given id. -/
def countIdBucket (v : List Listener) (id : Nat) : Nat :=
  (v.filter fun l => l.id = id).length

/-- Number of entries across all buckets of the map carrying the given id. -/
def countIdList : List (String × List Listener) → Nat → Nat
  | [], _ => 0
  | (_, v) :: rest, id => countIdBucket v id + countIdList rest id

/-- Number of listeners in the registry carrying the given id. -/
def countId (s : EventEmitter) (id : Nat) : Nat :=
  countIdList s.listeners id

/-- Total number of listeners across all buckets of the map. -/
def totalListeners : List (String × List Listener) → Nat
  | [] => 0
  | (_, v) :: rest => v.length + totalListeners rest

/-- Bucket with the first entry of the given id removed; the bucket itself
when the id is absent. -/
def eraseFirstId (v : List Listener) (id : Nat) : List Listener :=
  (removeFromBucket v id).getD v

/-- Number of scheduled invocations in a handle list that belong to the
listener with the given id. -/
def countHandles (hs : List (Nat × Bytes)) (i : Nat) : Nat :=
  (hs.filter fun p => p.1 = i).length

/-- Payload codec instantiated at `T = u32` (the type the crate tests emit):
`bincode::serialize` with bincode 1.x defaults writes a `u32` as four
little-endian bytes. -/
def encodeU32 (v : Nat) : Bytes :=
  [v % 256, v / 256 % 256, v / 65536 % 256, v / 16777216 % 256]

/-- Payload codec instantiated at `T = u32`: `bincode::deserialize` reads four
little-endian bytes back into a `u32`, failing on any other byte count. -/
def decodeU32 : Bytes → Option Nat
  | [b0, b1, b2, b3] => some (b0 + 256 * b1 + 65536 * b2 + 16777216 * b3)
  | _ => none

/-- Wrapped callback stored by `on_limited` for a listener of expected type
`u32`: `move |bytes| { let value: T = bincode::deserialize(&bytes).unwrap();
callback(value) }`; the `.unwrap()` panic on a decode mismatch is
`Except.error ()`. -/
def parsedCallback {α : Type} (callback : Nat → α) (bytes : Bytes) :
    Except Unit α :=
  match decodeU32 bytes with
  | some v => Except.ok (callback v)
  | none => Except.error ()

/-- Client-visible operations on one registry, used to range over every
reachable registry state.  A `reg` is any of `on` / `on_limited` / `once`
(all funnel into `on_limited`); `emitOp` carries the encoding outcome of the
emitted value; `removeOp` is `remove_listener`. -/
inductive Op where
  | reg (event : String) (limit : Option Nat)
  | emitOp (event : String) (enc : Option Bytes)
  | removeOp (id : Nat)

/-- Run a list of operations.  The `Nat` is the fresh-id supply modelling
`Uuid::new_v4()`: each registration consumes the current value.  Returns the
final registry, the final supply, and the ids issued by the registrations in
order. -/
def runOps : EventEmitter → Nat → List Op → EventEmitter × Nat × List Nat
  | s, c, [] => (s, c, [])
  | s, c, Op.reg e lim :: rest =>
    let out := runOps (on_limited s e lim c) (c + 1) rest
    (out.1, out.2.1, c :: out.2.2)
  | s, c, Op.emitOp e enc :: rest => runOps (emit s e enc).1 c rest
  | s, c, Op.removeOp id :: rest => runOps (remove_listener s id).1 c rest

/-! ## Association-list lemmas -/

theorem getBucket_setBucket_ne (m : List (String × List Listener)) (e e2 : String)
    (b : List Listener) (h : e2 ≠ e) :
    getBucket (setBucket m e b) e2 = getBucket m e2 := by
  induction m with
  | nil => rfl
  | cons kv rest ih =>
    obtain ⟨k, v⟩ := kv
    by_cases hk : k = e
    · subst hk
      have hk2 : ¬ (k = e2) := fun hh => h hh.symm
      simp [setBucket, getBucket, hk2]
    · simp [setBucket, getBucket, hk, ih]

theorem getBucket_setBucket_same (m : List (String × List Listener)) (e : String)
    (v b : List Listener) (h : getBucket m e = some v) :
    getBucket (setBucket m e b) e = some b := by
  induction m with
  | nil => simp [getBucket] at h
  | cons kv rest ih =>
    obtain ⟨k, w⟩ := kv
    by_cases hk : k = e
    · subst hk; simp [setBucket, getBucket]
    · simp [getBucket, hk] at h
      simp [setBucket, getBucket, hk, ih h]

theorem setBucket_self (m : List (String × List Listener)) (e : String)
    (v : List Listener) (h : getBucket m e = some v) :
    setBucket m e v = m := by
  induction m with
  | nil => simp [getBucket] at h
  | cons kv rest ih =>
    obtain ⟨k, w⟩ := kv
    by_cases hk : k = e
    · subst hk; simp [getBucket] at h; simp [setBucket, h]
    · simp [getBucket, hk] at h
      simp [setBucket, hk, ih h]

theorem getBucket_insertListener_same (m : List (String × List Listener))
    (e : String) (l : Listener) :
    getBucket (insertListener m e l) e = some ((getBucket m e).getD [] ++ [l]) := by
  induction m with
  | nil => simp [insertListener, getBucket]
  | cons kv rest ih =>
    obtain ⟨k, v⟩ := kv
    by_cases hk : k = e
    · subst hk; simp [insertListener, getBucket]
    · simp [insertListener, getBucket, hk, ih]

theorem getBucket_insertListener_ne (m : List (String × List Listener))
    (e e2 : String) (l : Listener) (h : e2 ≠ e) :
    getBucket (insertListener m e l) e2 = getBucket m e2 := by
  induction m with
  | nil =>
    have h2 : ¬ (e = e2) := fun hh => h hh.symm
    simp [insertListener, getBucket, h2]
  | cons kv rest ih =>
    obtain ⟨k, v⟩ := kv
    by_cases hk : k = e
    · subst hk
      have hk2 : ¬ (k = e2) := fun hh => h hh.symm
      simp [insertListener, getBucket, hk2]
    · simp [insertListener, getBucket, hk, ih]

/-! ## Dispatch-loop lemmas -/

theorem removeIndicesRev_shift (idxs : List Nat) (x : Listener) (xs : List Listener) :
    removeIndicesRev (x :: xs) (idxs.map (· + 1)) = x :: removeIndicesRev xs idxs := by
  induction idxs with
  | nil => rfl
  | cons i rest ih => simp [removeIndicesRev, ih, removeAt]

theorem emitLoop_shift (ls : List Listener) (b : Bytes) (i : Nat) :
    emitLoop ls (i + 1) b =
      ((emitLoop ls i b).1, (emitLoop ls i b).2.1.map (· + 1),
        (emitLoop ls i b).2.2) := by
  induction ls generalizing i with
  | nil => rfl
  | cons l rest ih =>
    cases hl : l.limit with
    | none => simp [emitLoop, hl, ih]
    | some m =>
      by_cases hm : m = 0
      · subst hm; simp [emitLoop, hl, ih]
      · simp [emitLoop, hl, hm, ih]

theorem emitBucket_cons (l : Listener) (rest : List Listener) :
    emitBucket (l :: rest) =
      if l.limit = some 0 then emitBucket rest
      else decListener l :: emitBucket rest := by
  by_cases h : l.limit = some 0 <;> simp [emitBucket, List.filter_cons, h]

theorem emitHandles_cons (l : Listener) (rest : List Listener) (b : Bytes) :
    emitHandles (l :: rest) b =
      if l.limit = some 0 then emitHandles rest b
      else (l.id, b) :: emitHandles rest b := by
  by_cases h : l.limit = some 0 <;> simp [emitHandles, List.filter_cons, h]

theorem emitLoop_spec (ls : List Listener) (b : Bytes) :
    removeIndicesRev (emitLoop ls 0 b).1 (emitLoop ls 0 b).2.1 = emitBucket ls ∧
    (emitLoop ls 0 b).2.2 = emitHandles ls b := by
  induction ls with
  | nil => exact ⟨rfl, rfl⟩
  | cons l rest ih =>
    have hshift := emitLoop_shift rest b 0
    cases hl : l.limit with
    | none =>
      constructor
      · simp [emitLoop, hl, hshift, removeIndicesRev_shift, ih.1, emitBucket_cons,
          decListener]
      · simp [emitLoop, hl, hshift, ih.2, emitHandles_cons]
    | some m =>
      by_cases hm : m = 0
      · subst hm
        constructor
        · simp [emitLoop, hl, hshift, removeIndicesRev, removeIndicesRev_shift,
            removeAt, ih.1, emitBucket_cons]
        · simp [emitLoop, hl, hshift, ih.2, emitHandles_cons]
      · have hne : ¬ (l.limit = some 0) := by simp [hl, hm]
        constructor
        · simp [emitLoop, hl, hm, hshift, removeIndicesRev_shift, ih.1,
            emitBucket_cons, hne, decListener]
        · simp [emitLoop, hl, hm, hshift, ih.2, emitHandles_cons, hne]

/-! ## One-call characterisations of `emit` -/

theorem emit_bucket_absent (s : EventEmitter) (e : String) (enc : Option Bytes)
    (h : getBucket s.listeners e = none) :
    emit s e enc = (s, Except.ok []) := by
  simp [emit, h]

theorem emit_encode_panic (s : EventEmitter) (e : String) (ls : List Listener)
    (h : getBucket s.listeners e = some ls) :
    emit s e none = (s, Except.error ()) := by
  simp [emit, h]

theorem emit_dispatch (s : EventEmitter) (e : String) (b : Bytes)
    (ls : List Listener) (h : getBucket s.listeners e = some ls) :
    emit s e (some b) =
      (⟨setBucket s.listeners e (emitBucket ls)⟩, Except.ok (emitHandles ls b)) := by
  have hs := emitLoop_spec ls b
  simp [emit, h, hs.1, hs.2]

/-! ## Repeated emission on a single limited listener -/

theorem emitRun_empty_bucket (k : Nat) (e : String) (b : Bytes) :
    emitRun k ⟨[(e, [])]⟩ e b = (⟨[(e, [])]⟩, []) := by
  induction k with
  | zero => rfl
  | succ k ih =>
    have h : getBucket [(e, ([] : List Listener))] e = some [] := by
      simp [getBucket]
    have hd := emit_dispatch ⟨[(e, [])]⟩ e b [] h
    simp [emitRun, hd, emitBucket, emitHandles, setBucket, ih]

theorem emitRun_single (k : Nat) : ∀ (n i : Nat) (e : String) (b : Bytes),
    emitRun k ⟨[(e, [⟨i, some n⟩])]⟩ e b =
      (⟨[(e, if k ≤ n then [⟨i, some (n - k)⟩] else [])]⟩,
        List.replicate (min n k) (i, b)) := by
  induction k with
  | zero => intro n i e b; simp [emitRun]
  | succ k ih =>
    intro n i e b
    match n with
    | 0 =>
      have h : getBucket [(e, [(⟨i, some 0⟩ : Listener)])] e
          = some [⟨i, some 0⟩] := by simp [getBucket]
      have hd := emit_dispatch ⟨[(e, [⟨i, some 0⟩])]⟩ e b [⟨i, some 0⟩] h
      simp [emitRun, hd, emitBucket, emitHandles, setBucket,
        emitRun_empty_bucket, List.filter]
    | Nat.succ m =>
      have h : getBucket [(e, [(⟨i, some (m + 1)⟩ : Listener)])] e
          = some [⟨i, some (m + 1)⟩] := by simp [getBucket]
      have hd := emit_dispatch ⟨[(e, [⟨i, some (m + 1)⟩])]⟩ e b [⟨i, some (m + 1)⟩] h
      have harith : min (m + 1) (k + 1) = min m k + 1 := Nat.succ_min_succ m k
      simp [emitRun, hd, emitBucket, emitHandles, setBucket, decListener,
        List.filter, ih m i e b, harith, List.replicate_succ,
        Nat.succ_sub_succ, Nat.succ_le_succ_iff]

/-! ## Counting listeners by id -/

theorem countIdBucket_nil (id : Nat) : countIdBucket [] id = 0 := rfl

theorem countIdBucket_cons (l : Listener) (v : List Listener) (id : Nat) :
    countIdBucket (l :: v) id =
      (if l.id = id then 1 else 0) + countIdBucket v id := by
  by_cases h : l.id = id <;>
    simp [countIdBucket, List.filter_cons, h, Nat.add_comm]

theorem countIdBucket_append (v w : List Listener) (id : Nat) :
    countIdBucket (v ++ w) id = countIdBucket v id + countIdBucket w id := by
  simp [countIdBucket, List.filter_append]

theorem decListener_id (l : Listener) : (decListener l).id = l.id := by
  cases hl : l.limit with
  | none => simp [decListener, hl]
  | some m => by_cases hm : m = 0 <;> simp [decListener, hl, hm]

theorem countIdBucket_emitBucket_le (v : List Listener) (id : Nat) :
    countIdBucket (emitBucket v) id ≤ countIdBucket v id := by
  induction v with
  | nil => exact Nat.le_refl _
  | cons l rest ih =>
    rw [emitBucket_cons, countIdBucket_cons]
    by_cases h : l.limit = some 0
    · simp only [if_pos h]
      exact Nat.le_trans ih (Nat.le_add_left _ _)
    · simp only [if_neg h]
      rw [countIdBucket_cons, decListener_id]
      by_cases hid : l.id = id <;> simp [hid] <;> omega

theorem countIdList_insertListener (m : List (String × List Listener))
    (e : String) (l : Listener) (id : Nat) :
    countIdList (insertListener m e l) id =
      countIdList m id + (if l.id = id then 1 else 0) := by
  induction m with
  | nil =>
    by_cases h : l.id = id <;>
      simp [insertListener, countIdList, countIdBucket_cons, countIdBucket_nil, h]
  | cons kv rest ih =>
    obtain ⟨k, v⟩ := kv
    by_cases hk : k = e
    · subst hk
      simp [insertListener, countIdList, countIdBucket_append,
        countIdBucket_cons, countIdBucket_nil]
      by_cases h : l.id = id
      · simp [h]; omega
      · simp [h]
    · simp [insertListener, hk, countIdList, ih]
      omega

theorem countIdList_setBucket (m : List (String × List Listener)) (e : String)
    (v b : List Listener) (id : Nat) (h : getBucket m e = some v) :
    countIdList (setBucket m e b) id + countIdBucket v id =
      countIdList m id + countIdBucket b id := by
  induction m with
  | nil => simp [getBucket] at h
  | cons kv rest ih =>
    obtain ⟨k, w⟩ := kv
    by_cases hk : k = e
    · subst hk
      simp [getBucket] at h
      subst h
      simp [setBucket, countIdList]
      omega
    · simp [getBucket, hk] at h
      simp [setBucket, hk, countIdList]
      have := ih h
      omega

theorem countId_emit_le (s : EventEmitter) (e : String) (enc : Option Bytes)
    (id : Nat) : countId (emit s e enc).1 id ≤ countId s id := by
  cases hb : getBucket s.listeners e with
  | none => simp [emit_bucket_absent s e enc hb]
  | some ls =>
    cases enc with
    | none => simp [emit_encode_panic s e ls hb]
    | some b =>
      rw [emit_dispatch s e b ls hb]
      have h1 := countIdList_setBucket s.listeners e ls (emitBucket ls) id hb
      have h2 := countIdBucket_emitBucket_le ls id
      simp only [countId]
      omega

theorem countId_on_limited (s : EventEmitter) (e : String) (lim : Option Nat)
    (i id : Nat) :
    countId (on_limited s e lim i) id =
      countId s id + (if i = id then 1 else 0) := by
  simpa [countId, on_limited] using
    countIdList_insertListener s.listeners e ⟨i, lim⟩ id

/-! ## Removal lemmas -/

theorem removeFromBucket_none_iff (v : List Listener) (id : Nat) :
    removeFromBucket v id = none ↔ countIdBucket v id = 0 := by
  induction v with
  | nil => simp [removeFromBucket, countIdBucket_nil]
  | cons l rest ih =>
    by_cases h : l.id = id
    · simp [removeFromBucket, h, countIdBucket_cons]
    · simp [removeFromBucket, h, countIdBucket_cons, ih]

theorem removeFromBucket_some (v : List Listener) (id : Nat) :
    ∀ v2, removeFromBucket v id = some v2 →
      countIdBucket v2 id + 1 = countIdBucket v id ∧
      v2.length + 1 = v.length ∧
      ∀ id2, countIdBucket v2 id2 ≤ countIdBucket v id2 := by
  induction v with
  | nil => intro v2 h; simp [removeFromBucket] at h
  | cons l rest ih =>
    intro v2 h
    by_cases hl : l.id = id
    · simp [removeFromBucket, hl] at h
      subst h
      refine ⟨by rw [countIdBucket_cons, if_pos hl]; omega, by simp, ?_⟩
      intro id2
      rw [countIdBucket_cons]
      omega
    · simp [removeFromBucket, hl] at h
      obtain ⟨w, hw, rfl⟩ := h
      obtain ⟨h1, h2, h3⟩ := ih w hw
      refine ⟨?_, by simpa using h2, ?_⟩
      · rw [countIdBucket_cons, countIdBucket_cons]
        omega
      · intro id2
        rw [countIdBucket_cons, countIdBucket_cons]
        have := h3 id2
        omega

theorem removeListenerAux_none (m : List (String × List Listener)) (id : Nat)
    (h : countIdList m id = 0) : removeListenerAux m id = none := by
  induction m with
  | nil => rfl
  | cons kv rest ih =>
    obtain ⟨k, v⟩ := kv
    simp [countIdList] at h
    have hb : removeFromBucket v id = none := by
      rw [removeFromBucket_none_iff]
      omega
    have hr : countIdList rest id = 0 := by omega
    simp [removeListenerAux, hb, ih hr]

theorem eraseFirstId_of_absent (v : List Listener) (id : Nat)
    (h : countIdBucket v id = 0) : eraseFirstId v id = v := by
  have hb : removeFromBucket v id = none := (removeFromBucket_none_iff v id).2 h
  simp [eraseFirstId, hb]

theorem map_eraseFirstId_of_absent (m : List (String × List Listener)) (id : Nat)
    (h : countIdList m id = 0) :
    m.map (fun kv => (kv.1, eraseFirstId kv.2 id)) = m := by
  induction m with
  | nil => rfl
  | cons kv rest ih =>
    obtain ⟨k, v⟩ := kv
    simp [countIdList] at h
    have h1 : countIdBucket v id = 0 := by omega
    have h2 : countIdList rest id = 0 := by omega
    simp [eraseFirstId_of_absent v id h1, ih h2]

theorem removeListenerAux_count_one (m : List (String × List Listener))
    (id : Nat) (h : countIdList m id = 1) :
    removeListenerAux m id =
      some (m.map fun kv => (kv.1, eraseFirstId kv.2 id)) ∧
    countIdList (m.map fun kv => (kv.1, eraseFirstId kv.2 id)) id = 0 ∧
    totalListeners (m.map fun kv => (kv.1, eraseFirstId kv.2 id)) + 1 =
      totalListeners m := by
  induction m with
  | nil => simp [countIdList] at h
  | cons kv rest ih =>
    obtain ⟨k, v⟩ := kv
    simp [countIdList] at h
    by_cases hv : countIdBucket v id = 0
    · have hrest : countIdList rest id = 1 := by omega
      have hb : removeFromBucket v id = none :=
        (removeFromBucket_none_iff v id).2 hv
      have hev : eraseFirstId v id = v := eraseFirstId_of_absent v id hv
      obtain ⟨h1, h2, h3⟩ := ih hrest
      refine ⟨?_, ?_, ?_⟩
      · simp [removeListenerAux, hb, h1, hev]
      · simp [countIdList, hev, hv, h2]
      · simp [totalListeners, hev]
        omega
    · have hv1 : countIdBucket v id = 1 := by omega
      have hrest : countIdList rest id = 0 := by omega
      cases hb : removeFromBucket v id with
      | none =>
        rw [removeFromBucket_none_iff] at hb
        omega
      | some v2 =>
        obtain ⟨c1, c2, _⟩ := removeFromBucket_some v id v2 hb
        have hev : eraseFirstId v id = v2 := by simp [eraseFirstId, hb]
        have hmap := map_eraseFirstId_of_absent rest id hrest
        refine ⟨?_, ?_, ?_⟩
        · simp [removeListenerAux, hb, hev, hmap]
        · simp [countIdList, hev, hmap]
          omega
        · simp [totalListeners, hev, hmap]
          omega

theorem removeListenerAux_some_count_le (m : List (String × List Listener))
    (id : Nat) :
    ∀ m2, removeListenerAux m id = some m2 →
      ∀ id2, countIdList m2 id2 ≤ countIdList m id2 := by
  induction m with
  | nil => intro m2 h; simp [removeListenerAux] at h
  | cons kv rest ih =>
    obtain ⟨k, v⟩ := kv
    intro m2 h
    cases hb : removeFromBucket v id with
    | some v2 =>
      simp [removeListenerAux, hb] at h
      subst h
      intro id2
      have := (removeFromBucket_some v id v2 hb).2.2 id2
      simp [countIdList]
      omega
    | none =>
      simp [removeListenerAux, hb] at h
      obtain ⟨w, hw, rfl⟩ := h
      intro id2
      have := ih w hw id2
      simp [countIdList]
      omega

theorem countId_remove_le (s : EventEmitter) (i id : Nat) :
    countId (remove_listener s i).1 id ≤ countId s id := by
  cases h : removeListenerAux s.listeners i with
  | none => simp [remove_listener, h]
  | some m2 =>
    have := removeListenerAux_some_count_le s.listeners i m2 h id
    simp [remove_listener, h, countId]
    exact this

/-! ## Fresh-id supply invariant -/

theorem runOps_spec (ops : List Op) : ∀ (s : EventEmitter) (c : Nat),
    (∀ id, countId s id ≤ 1) → (∀ id, c ≤ id → countId s id = 0) →
    (∀ id, countId (runOps s c ops).1 id ≤ 1) ∧
    (runOps s c ops).2.2.Nodup ∧
    (∀ x ∈ (runOps s c ops).2.2, c ≤ x) := by
  induction ops with
  | nil =>
    intro s c h1 _
    exact ⟨h1, List.nodup_nil, by simp [runOps]⟩
  | cons op rest ih =>
    intro s c h1 h2
    match op with
    | Op.reg e lim =>
      have hcount : ∀ id, countId (on_limited s e lim c) id ≤ 1 := by
        intro id
        rw [countId_on_limited]
        by_cases hc : c = id
        · subst hc
          have := h2 c (Nat.le_refl c)
          simp [this]
        · simp [hc]
          exact h1 id
      have hbound : ∀ id, c + 1 ≤ id → countId (on_limited s e lim c) id = 0 := by
        intro id hle
        rw [countId_on_limited]
        have hc : ¬ (c = id) := by omega
        simp [hc]
        exact h2 id (by omega)
      obtain ⟨g1, g2, g3⟩ := ih (on_limited s e lim c) (c + 1) hcount hbound
      refine ⟨?_, ?_, ?_⟩
      · intro id
        simpa [runOps] using g1 id
      · simp only [runOps, List.nodup_cons]
        refine ⟨fun hmem => ?_, g2⟩
        have := g3 c hmem
        omega
      · intro x hx
        simp only [runOps, List.mem_cons] at hx
        rcases hx with rfl | hx
        · exact Nat.le_refl x
        · have := g3 x hx
          omega
    | Op.emitOp e enc =>
      have hcount : ∀ id, countId (emit s e enc).1 id ≤ 1 :=
        fun id => Nat.le_trans (countId_emit_le s e enc id) (h1 id)
      have hbound : ∀ id, c ≤ id → countId (emit s e enc).1 id = 0 := by
        intro id hle
        have := countId_emit_le s e enc id
        have := h2 id hle
        omega
      simpa [runOps] using ih (emit s e enc).1 c hcount hbound
    | Op.removeOp i =>
      have hcount : ∀ id, countId (remove_listener s i).1 id ≤ 1 :=
        fun id => Nat.le_trans (countId_remove_le s i id) (h1 id)
      have hbound : ∀ id, c ≤ id → countId (remove_listener s i).1 id = 0 := by
        intro id hle
        have := countId_remove_le s i id
        have := h2 id hle
        omega
      simpa [runOps] using ih (remove_listener s i).1 c hcount hbound

/-! ## Per-listener invocation budget across repeated emits -/

theorem countHandles_cons (p : Nat × Bytes) (hs : List (Nat × Bytes)) (i : Nat) :
    countHandles (p :: hs) i = (if p.1 = i then 1 else 0) + countHandles hs i := by
  by_cases h : p.1 = i <;>
    simp [countHandles, List.filter_cons, h, Nat.add_comm]

theorem countHandles_append (xs ys : List (Nat × Bytes)) (i : Nat) :
    countHandles (xs ++ ys) i = countHandles xs i + countHandles ys i := by
  simp [countHandles, List.filter_append]

theorem filterId_emitBucket (ls : List Listener) (i : Nat) :
    (emitBucket ls).filter (fun l => l.id = i) =
      ((ls.filter fun l => l.id = i).filter fun l => l.limit ≠ some 0).map
        decListener := by
  induction ls with
  | nil => rfl
  | cons l rest ih =>
    rw [emitBucket_cons]
    by_cases h0 : l.limit = some 0
    · rw [if_pos h0]
      by_cases hi : l.id = i
      · simp [List.filter_cons, hi, h0, ih]
      · simp [List.filter_cons, hi, ih]
    · rw [if_neg h0]
      by_cases hi : l.id = i
      · simp [List.filter_cons, hi, h0, decListener_id, ih]
      · simp [List.filter_cons, hi, decListener_id, ih]

theorem countHandles_emitHandles (ls : List Listener) (b : Bytes) (i : Nat) :
    countHandles (emitHandles ls b) i =
      ((ls.filter fun l => l.id = i).filter fun l => l.limit ≠ some 0).length := by
  induction ls with
  | nil => rfl
  | cons l rest ih =>
    rw [emitHandles_cons]
    by_cases h0 : l.limit = some 0
    · rw [if_pos h0]
      by_cases hi : l.id = i
      · simp [List.filter_cons, hi, h0, ih]
      · simp [List.filter_cons, hi, ih]
    · rw [if_neg h0, countHandles_cons]
      by_cases hi : l.id = i
      · simp [List.filter_cons, hi, h0, ih, Nat.add_comm]
      · simp [List.filter_cons, hi, ih]

theorem emitRun_succ_dispatch (k : Nat) (s : EventEmitter) (e : String)
    (b : Bytes) (ls : List Listener) (h : getBucket s.listeners e = some ls) :
    emitRun (k + 1) s e b =
      ((emitRun k ⟨setBucket s.listeners e (emitBucket ls)⟩ e b).1,
        emitHandles ls b ++
          (emitRun k ⟨setBucket s.listeners e (emitBucket ls)⟩ e b).2) := by
  simp [emitRun, emit_dispatch s e b ls h]

theorem emitRun_listener_absent (k : Nat) :
    ∀ (s : EventEmitter) (e : String) (b : Bytes) (ls : List Listener) (i : Nat),
      getBucket s.listeners e = some ls →
      ls.filter (fun l => l.id = i) = [] →
      countHandles (emitRun k s e b).2 i = 0 ∧
      ∃ ls2, getBucket (emitRun k s e b).1.listeners e = some ls2 ∧
        ls2.filter (fun l => l.id = i) = [] := by
  induction k with
  | zero => intro s e b ls i h hf; exact ⟨rfl, ⟨ls, h, hf⟩⟩
  | succ k ih =>
    intro s e b ls i h hf
    rw [emitRun_succ_dispatch k s e b ls h]
    have hnew : getBucket (setBucket s.listeners e (emitBucket ls)) e =
        some (emitBucket ls) :=
      getBucket_setBucket_same s.listeners e ls (emitBucket ls) h
    have hf2 : (emitBucket ls).filter (fun l => l.id = i) = [] := by
      rw [filterId_emitBucket, hf]; rfl
    obtain ⟨hc, ls2, hg, hfl⟩ :=
      ih ⟨setBucket s.listeners e (emitBucket ls)⟩ e b (emitBucket ls) i hnew hf2
    refine ⟨?_, ls2, hg, hfl⟩
    rw [countHandles_append, countHandles_emitHandles, hf, hc]
    simp

theorem emitRun_listener_budget (k : Nat) :
    ∀ (s : EventEmitter) (e : String) (b : Bytes) (ls : List Listener) (i m : Nat),
      getBucket s.listeners e = some ls →
      ls.filter (fun l => l.id = i) = [⟨i, some m⟩] →
      countHandles (emitRun k s e b).2 i = min m k ∧
      ∃ ls2, getBucket (emitRun k s e b).1.listeners e = some ls2 ∧
        ls2.filter (fun l => l.id = i) =
          (if k ≤ m then [⟨i, some (m - k)⟩] else []) := by
  induction k with
  | zero =>
    intro s e b ls i m h hf
    exact ⟨by simp [countHandles, emitRun], ⟨ls, h, by simp [hf]⟩⟩
  | succ k ih =>
    intro s e b ls i m h hf
    rw [emitRun_succ_dispatch k s e b ls h]
    have hnew : getBucket (setBucket s.listeners e (emitBucket ls)) e =
        some (emitBucket ls) :=
      getBucket_setBucket_same s.listeners e ls (emitBucket ls) h
    match m with
    | 0 =>
      have hf2 : (emitBucket ls).filter (fun l => l.id = i) = [] := by
        rw [filterId_emitBucket, hf]; rfl
      obtain ⟨hc, ls2, hg, hfl⟩ :=
        emitRun_listener_absent k ⟨setBucket s.listeners e (emitBucket ls)⟩ e b
          (emitBucket ls) i hnew hf2
      refine ⟨?_, ls2, hg, by simp [hfl]⟩
      rw [countHandles_append, countHandles_emitHandles, hf, hc]
      simp
    | Nat.succ m2 =>
      have hf2 : (emitBucket ls).filter (fun l => l.id = i) = [⟨i, some m2⟩] := by
        rw [filterId_emitBucket, hf]
        simp [List.filter_cons, decListener]
      obtain ⟨hc, ls2, hg, hfl⟩ :=
        ih ⟨setBucket s.listeners e (emitBucket ls)⟩ e b (emitBucket ls) i m2
          hnew hf2
      constructor
      · rw [countHandles_append, countHandles_emitHandles, hf, hc]
        simp [List.filter_cons]
        omega
      · refine ⟨ls2, hg, ?_⟩
        rw [hfl]
        simp [Nat.succ_sub_succ, Nat.succ_le_succ_iff]

/-! ## Codec round trip -/

theorem decodeU32_encodeU32 (v : Nat) (h : v < 4294967296) :
    decodeU32 (encodeU32 v) = some v := by
  simp [encodeU32, decodeU32]
  omega

/-! ## Claim theorems -/

/-- C1 counterexample: register a listener with `limit = Some(1)` on event
`"e"` and emit once.  That single emit performs the 1st (= n-th) invocation of
the listener — the handle list is `[(0, bytes)]` — yet immediately after the
call the listener is still in the bucket for `"e"`, now carrying `Some(0)`.
This contradicts the claim that the listener is absent from the bucket
immediately after the emit call that performs the n-th invocation. -/
theorem C1_counterexample_present_after_nth_invocation :
    (emit (on_limited EventEmitter.new "e" (some 1) 0) "e" (some [1])).2 =
      Except.ok [(0, [1])] ∧
    getBucket
      (emit (on_limited EventEmitter.new "e" (some 1) 0) "e" (some [1])).1.listeners
      "e" = some [⟨0, some 0⟩] := by
  exact ⟨rfl, rfl⟩

/-- C1 amended: for a listener registered with `limit = Some(n)` (`n ≥ 1`) on
event `e` — expressed as: the bucket's entries carrying its id `i` are exactly
`[⟨i, Some n⟩]` — across `k ≥ n` emits on `e` the listener's callback is
scheduled exactly `n` times (so a subsequent emit adds no invocation).  But
the listener is only marked exhausted, not yet removed, by the emit performing
the n-th invocation: after `n` emits it is still in the bucket with counter
`Some(0)`, and it is gone from the bucket from the `(n+1)`-th emit onward. -/
theorem C1_amended_limited_listener_budget (s : EventEmitter) (e : String)
    (b : Bytes) (ls : List Listener) (i n k : Nat)
    (h : getBucket s.listeners e = some ls)
    (hocc : ls.filter (fun l => l.id = i) = [⟨i, some n⟩])
    (_hn : 1 ≤ n) (hk : n ≤ k) :
    countHandles (emitRun k s e b).2 i = n ∧
    (∃ ls2, getBucket (emitRun n s e b).1.listeners e = some ls2 ∧
      ls2.filter (fun l => l.id = i) = [⟨i, some 0⟩]) ∧
    (n + 1 ≤ k →
      ∃ ls3, getBucket (emitRun k s e b).1.listeners e = some ls3 ∧
        ls3.filter (fun l => l.id = i) = []) := by
  obtain ⟨hck, ls3, hg3, hf3⟩ := emitRun_listener_budget k s e b ls i n h hocc
  obtain ⟨_, ls2, hg2, hf2⟩ := emitRun_listener_budget n s e b ls i n h hocc
  refine ⟨?_, ⟨ls2, hg2, ?_⟩, fun hk1 => ⟨ls3, hg3, ?_⟩⟩
  · rw [hck]; omega
  · rw [hf2]; simp
  · rw [hf3]
    have : ¬ (k ≤ n) := by omega
    simp [this]

/-- C1 amended, witnessed at `n = 2`, `k = 3` (the spec's own scenario for
event `"y"`). -/
theorem C1_amended_limited_listener_budget_witness :
    getBucket (on_limited EventEmitter.new "y" (some 2) 0).listeners "y" =
      some [⟨0, some 2⟩] ∧
    ([(⟨0, some 2⟩ : Listener)].filter (fun l => l.id = 0) = [⟨0, some 2⟩]) ∧
    1 ≤ 2 ∧ 2 ≤ 3 ∧
    (countHandles
        (emitRun 3 (on_limited EventEmitter.new "y" (some 2) 0) "y" [7]).2 0 = 2 ∧
      (∃ ls2,
        getBucket
            (emitRun 2 (on_limited EventEmitter.new "y" (some 2) 0) "y" [7]).1.listeners
            "y" = some ls2 ∧
          ls2.filter (fun l => l.id = 0) = [⟨0, some 0⟩]) ∧
      (2 + 1 ≤ 3 →
        ∃ ls3,
          getBucket
              (emitRun 3 (on_limited EventEmitter.new "y" (some 2) 0) "y" [7]).1.listeners
              "y" = some ls3 ∧
            ls3.filter (fun l => l.id = 0) = [])) :=
  ⟨by decide, by decide, by decide, by decide,
    C1_amended_limited_listener_budget (on_limited EventEmitter.new "y" (some 2) 0)
      "y" [7] [⟨0, some 2⟩] 0 2 3 (by decide) (by decide) (by decide) (by decide)⟩

/-- C2 counterexample: emit an unencodable value (`bincode::serialize` fails,
modelled by `enc = none`) on an event name with no bucket.  The source looks
the bucket up *before* serialising, so no error is raised: the call returns
`Ok` with an empty handle list instead of an error, refuting "for every emit
call whose value cannot be encoded, emit returns an error to the caller". -/
theorem C2_counterexample_unencodable_without_bucket_is_ok :
    emit EventEmitter.new "e" none = (EventEmitter.new, Except.ok []) := rfl

/-- C2 amended: when the emitted event name has a bucket, an encode failure
aborts the emit call (an `unwrap` panic, `Except.error ()`) before any
listener is scheduled and with the registry unchanged; when the event name
has no bucket, the value is never encoded and emit returns `Ok` with an empty
handle list, again leaving the registry unchanged. -/
theorem C2_amended_encode_failure_aborts (s : EventEmitter) (e : String) :
    (∀ ls, getBucket s.listeners e = some ls →
      emit s e none = (s, Except.error ())) ∧
    (getBucket s.listeners e = none →
      ∀ enc, emit s e enc = (s, Except.ok [])) :=
  ⟨fun ls h => emit_encode_panic s e ls h,
   fun h enc => emit_bucket_absent s e enc h⟩

/-- C2 amended, witnessed on a one-listener registry. -/
theorem C2_amended_encode_failure_aborts_witness :
    getBucket (on_limited EventEmitter.new "e" none 0).listeners "e" =
      some [⟨0, none⟩] ∧
    emit (on_limited EventEmitter.new "e" none 0) "e" none =
      (on_limited EventEmitter.new "e" none 0, Except.error ()) :=
  ⟨by decide,
    (C2_amended_encode_failure_aborts (on_limited EventEmitter.new "e" none 0)
      "e").1 [⟨0, none⟩] (by decide)⟩

/-- C3: in every dispatch pass over a bucket, exactly the listeners whose
counter is not `Some(0)` get a scheduled invocation (so a listener found with
`Some(0)` is never invoked), and the bucket at the end of the emit call is the
original bucket with every `Some(0)` entry removed and the surviving entries
decremented in place — i.e. each `Some(0)` listener is skipped and removed by
the end of that emit call. -/
theorem C3_exhausted_listener_skipped_and_removed (s : EventEmitter)
    (e : String) (b : Bytes) (ls : List Listener)
    (h : getBucket s.listeners e = some ls) :
    (emit s e (some b)).2 =
      Except.ok ((ls.filter fun l => l.limit ≠ some 0).map fun l => (l.id, b)) ∧
    getBucket (emit s e (some b)).1.listeners e =
      some ((ls.filter fun l => l.limit ≠ some 0).map decListener) := by
  rw [emit_dispatch s e b ls h]
  exact ⟨rfl, getBucket_setBucket_same s.listeners e ls (emitBucket ls) h⟩

/-- C3, witnessed on a bucket holding an exhausted listener (id 0, `Some(0)`)
and a live one (id 1): only id 1 is scheduled, and id 0 is gone afterwards. -/
theorem C3_exhausted_listener_skipped_and_removed_witness :
    getBucket (⟨[("e", [⟨0, some 0⟩, ⟨1, none⟩])]⟩ : EventEmitter).listeners "e" =
      some [⟨0, some 0⟩, ⟨1, none⟩] ∧
    ((emit (⟨[("e", [⟨0, some 0⟩, ⟨1, none⟩])]⟩ : EventEmitter) "e" (some [5])).2 =
      Except.ok
        (([(⟨0, some 0⟩ : Listener), ⟨1, none⟩].filter
            fun l => l.limit ≠ some 0).map fun l => (l.id, [5])) ∧
    getBucket
        (emit (⟨[("e", [⟨0, some 0⟩, ⟨1, none⟩])]⟩ : EventEmitter) "e"
          (some [5])).1.listeners "e" =
      some (([(⟨0, some 0⟩ : Listener), ⟨1, none⟩].filter
          fun l => l.limit ≠ some 0).map decListener)) :=
  ⟨by decide,
    C3_exhausted_listener_skipped_and_removed
      ⟨[("e", [⟨0, some 0⟩, ⟨1, none⟩])]⟩ "e" [5] [⟨0, some 0⟩, ⟨1, none⟩]
      (by decide)⟩

/-- C4: `once` produces, for every starting registry, event name and fresh id,
exactly the registry `on_limited` with `limit = Some(1)` produces (in the
source `once` literally delegates to `on_limited`), so every subsequent
observation of the two registries coincides; moreover a `once` listener on a
fresh registry is scheduled exactly once across `k ≥ 1` emits, and from the
second emit onward it is absent from the bucket. -/
theorem C4_once_equals_limit_one (s : EventEmitter) (e : String) (i k : Nat)
    (b : Bytes) (hk : 1 ≤ k) :
    once s e i = on_limited s e (some 1) i ∧
    (emitRun k (once EventEmitter.new e i) e b).2 = [(i, b)] ∧
    (2 ≤ k →
      getBucket (emitRun k (once EventEmitter.new e i) e b).1.listeners e =
        some []) := by
  have hshape : once EventEmitter.new e i = ⟨[(e, [⟨i, some 1⟩])]⟩ := rfl
  refine ⟨rfl, ?_, ?_⟩
  · rw [hshape, emitRun_single k 1 i e b, Nat.min_eq_left hk]
    simp
  · intro h2
    rw [hshape, emitRun_single k 1 i e b]
    have hnk : ¬ (k ≤ 1) := by omega
    simp [getBucket, hnk]

/-- C4, witnessed at `k = 2`. -/
theorem C4_once_equals_limit_one_witness :
    1 ≤ 2 ∧
    (once EventEmitter.new "x" 0 = on_limited EventEmitter.new "x" (some 1) 0 ∧
      (emitRun 2 (once EventEmitter.new "x" 0) "x" [3]).2 = [(0, [3])] ∧
      (2 ≤ 2 →
        getBucket (emitRun 2 (once EventEmitter.new "x" 0) "x" [3]).1.listeners
          "x" = some [])) :=
  ⟨by decide, C4_once_equals_limit_one EventEmitter.new "x" 0 2 [3] (by decide)⟩

/-- C5 counterexample: build an event whose bucket exists but is empty
(register on `"e"`, then remove the listener) and emit an unencodable value
on it.  The emit call reaches `bincode::serialize(..).unwrap()` — the bucket
is present — and panics instead of returning an empty handle list, refuting
the claim for the "empty bucket" half. -/
theorem C5_counterexample_empty_bucket_panics :
    getBucket
        ((remove_listener (on_limited EventEmitter.new "e" none 0) 0).1).listeners
        "e" = some [] ∧
    emit ((remove_listener (on_limited EventEmitter.new "e" none 0) 0).1) "e"
        none =
      ((remove_listener (on_limited EventEmitter.new "e" none 0) 0).1,
        Except.error ()) := by
  exact ⟨rfl, rfl⟩

/-- C5 amended: emit on an event name with no bucket returns an empty handle
list and leaves the whole registry unchanged, whatever the value (even an
unencodable one, since the value is never encoded).  Emit on a present but
empty bucket schedules nothing, returns an empty handle list and leaves the
registry unchanged provided the value encodes; if encoding fails it panics
(registry still unchanged, nothing scheduled) rather than returning. -/
theorem C5_amended_emit_without_listeners (s : EventEmitter) (e : String) :
    (getBucket s.listeners e = none → ∀ enc, emit s e enc = (s, Except.ok [])) ∧
    (getBucket s.listeners e = some [] →
      (∀ b, emit s e (some b) = (s, Except.ok [])) ∧
      emit s e none = (s, Except.error ())) := by
  refine ⟨fun h enc => emit_bucket_absent s e enc h,
    fun h => ⟨?_, emit_encode_panic s e [] h⟩⟩
  intro b
  rw [emit_dispatch s e b [] h]
  simp [emitBucket, emitHandles, setBucket_self s.listeners e [] h]

/-- C5 amended, witnessed on the empty registry (no bucket) and on a registry
with a present empty bucket. -/
theorem C5_amended_emit_without_listeners_witness :
    (getBucket EventEmitter.new.listeners "x" = none ∧
      emit EventEmitter.new "x" (some [1]) = (EventEmitter.new, Except.ok [])) ∧
    (getBucket (⟨[("e", [])]⟩ : EventEmitter).listeners "e" = some [] ∧
      emit (⟨[("e", [])]⟩ : EventEmitter) "e" (some [2]) =
        (⟨[("e", [])]⟩, Except.ok []) ∧
      emit (⟨[("e", [])]⟩ : EventEmitter) "e" none =
        (⟨[("e", [])]⟩, Except.error ())) :=
  ⟨⟨by decide,
      (C5_amended_emit_without_listeners EventEmitter.new "x").1 (by decide) (some [1])⟩,
   ⟨by decide,
      ((C5_amended_emit_without_listeners ⟨[("e", [])]⟩ "e").2 (by decide)).1 [2],
      ((C5_amended_emit_without_listeners ⟨[("e", [])]⟩ "e").2 (by decide)).2⟩⟩

/-- C6: when the id occurs nowhere in the registry, `remove_listener` returns
`None` ("not found") and leaves the registry unchanged; when it occurs exactly
once (the situation C9 guarantees), `remove_listener` returns `Some(id)`,
every bucket is left unchanged except that the single entry with this id is
dropped from its bucket (`eraseFirstId` is the identity on buckets not holding
the id), the total listener count drops by exactly one, and a second
`remove_listener` on the same id returns `None` with the registry unchanged. -/
theorem C6_remove_listener_exact_and_idempotent (s : EventEmitter) (id : Nat) :
    (countId s id = 0 → remove_listener s id = (s, none)) ∧
    (countId s id = 1 →
      remove_listener s id =
        (⟨s.listeners.map fun kv => (kv.1, eraseFirstId kv.2 id)⟩, some id) ∧
      countId (remove_listener s id).1 id = 0 ∧
      remove_listener (remove_listener s id).1 id =
        ((remove_listener s id).1, none) ∧
      totalListeners (remove_listener s id).1.listeners + 1 =
        totalListeners s.listeners) := by
  constructor
  · intro h
    simp [remove_listener, removeListenerAux_none s.listeners id h]
  · intro h
    obtain ⟨h1, h2, h3⟩ := removeListenerAux_count_one s.listeners id h
    have hrm : remove_listener s id =
        (⟨s.listeners.map fun kv => (kv.1, eraseFirstId kv.2 id)⟩, some id) := by
      simp [remove_listener, h1]
    refine ⟨hrm, ?_, ?_, ?_⟩
    · rw [hrm]
      exact h2
    · rw [hrm]
      simp [remove_listener, removeListenerAux_none _ id h2]
    · rw [hrm]
      exact h3

/-- C6, witnessed on a two-bucket registry (removing id 0 from bucket `"a"`,
then removing it again) and on the empty registry (unknown id). -/
theorem C6_remove_listener_exact_and_idempotent_witness :
    (countId EventEmitter.new 5 = 0 ∧
      remove_listener EventEmitter.new 5 = (EventEmitter.new, none)) ∧
    (countId (⟨[("a", [⟨0, none⟩]), ("b", [⟨1, none⟩])]⟩ : EventEmitter) 0 = 1 ∧
      (remove_listener (⟨[("a", [⟨0, none⟩]), ("b", [⟨1, none⟩])]⟩ : EventEmitter) 0 =
        (⟨(⟨[("a", [⟨0, none⟩]), ("b", [⟨1, none⟩])]⟩ : EventEmitter).listeners.map
            fun kv => (kv.1, eraseFirstId kv.2 0)⟩, some 0) ∧
      countId
          (remove_listener (⟨[("a", [⟨0, none⟩]), ("b", [⟨1, none⟩])]⟩ : EventEmitter)
            0).1 0 = 0 ∧
      remove_listener
          (remove_listener (⟨[("a", [⟨0, none⟩]), ("b", [⟨1, none⟩])]⟩ : EventEmitter)
            0).1 0 =
        ((remove_listener (⟨[("a", [⟨0, none⟩]), ("b", [⟨1, none⟩])]⟩ : EventEmitter)
            0).1, none) ∧
      totalListeners
          (remove_listener (⟨[("a", [⟨0, none⟩]), ("b", [⟨1, none⟩])]⟩ : EventEmitter)
            0).1.listeners + 1 =
        totalListeners
          (⟨[("a", [⟨0, none⟩]), ("b", [⟨1, none⟩])]⟩ : EventEmitter).listeners)) :=
  ⟨⟨by decide,
      (C6_remove_listener_exact_and_idempotent EventEmitter.new 5).1 (by decide)⟩,
   ⟨by decide,
      (C6_remove_listener_exact_and_idempotent
        ⟨[("a", [⟨0, none⟩]), ("b", [⟨1, none⟩])]⟩ 0).2 (by decide)⟩⟩

/-- C7: a registration appends the new listener at the end of its event's
bucket (creating a singleton bucket when the event had none), dispatch
schedules the bucket's listeners in exactly bucket (= insertion) order, and
the pruning at the end of an emit keeps precisely the non-`Some(0)` entries in
their original relative order, each decremented in place and otherwise
untouched. -/
theorem C7_insertion_order_preserved (s : EventEmitter) (e : String)
    (lim : Option Nat) (i : Nat) (b : Bytes) (ls : List Listener)
    (h : getBucket s.listeners e = some ls) :
    getBucket (on_limited s e lim i).listeners e =
      some ((getBucket s.listeners e).getD [] ++ [⟨i, lim⟩]) ∧
    (emit s e (some b)).2 =
      Except.ok ((ls.filter fun l => l.limit ≠ some 0).map fun l => (l.id, b)) ∧
    getBucket (emit s e (some b)).1.listeners e =
      some ((ls.filter fun l => l.limit ≠ some 0).map decListener) := by
  refine ⟨getBucket_insertListener_same s.listeners e ⟨i, lim⟩, ?_, ?_⟩
  · rw [emit_dispatch s e b ls h]
    rfl
  · rw [emit_dispatch s e b ls h]
    exact getBucket_setBucket_same s.listeners e ls (emitBucket ls) h

/-- C7, witnessed on a two-listener bucket. -/
theorem C7_insertion_order_preserved_witness :
    getBucket (⟨[("e", [⟨0, some 3⟩, ⟨1, none⟩])]⟩ : EventEmitter).listeners "e" =
      some [⟨0, some 3⟩, ⟨1, none⟩] ∧
    (getBucket
        (on_limited (⟨[("e", [⟨0, some 3⟩, ⟨1, none⟩])]⟩ : EventEmitter) "e"
          (some 2) 7).listeners "e" =
      some ((getBucket
          (⟨[("e", [⟨0, some 3⟩, ⟨1, none⟩])]⟩ : EventEmitter).listeners "e").getD []
        ++ [⟨7, some 2⟩]) ∧
    (emit (⟨[("e", [⟨0, some 3⟩, ⟨1, none⟩])]⟩ : EventEmitter) "e" (some [9])).2 =
      Except.ok
        (([(⟨0, some 3⟩ : Listener), ⟨1, none⟩].filter
            fun l => l.limit ≠ some 0).map fun l => (l.id, [9])) ∧
    getBucket
        (emit (⟨[("e", [⟨0, some 3⟩, ⟨1, none⟩])]⟩ : EventEmitter) "e"
          (some [9])).1.listeners "e" =
      some (([(⟨0, some 3⟩ : Listener), ⟨1, none⟩].filter
          fun l => l.limit ≠ some 0).map decListener)) :=
  ⟨by decide,
    C7_insertion_order_preserved ⟨[("e", [⟨0, some 3⟩, ⟨1, none⟩])]⟩ "e" (some 2)
      7 [9] [⟨0, some 3⟩, ⟨1, none⟩] (by decide)⟩

/-- C8: round trip through the payload codec at `T = u32`.  Encoding a `u32`
value `v` and decoding it back yields `v` exactly; every handle scheduled by a
successful emit of `v` carries the encoding of `v`, and the stored
decode-then-invoke wrapper of every listener expecting a `u32` therefore hands
its typed callback exactly the value `v` that was emitted. -/
theorem C8_roundtrip_u32 {α : Type} (cb : Nat → α) (v : Nat)
    (hv : v < 4294967296) (s : EventEmitter) (e : String) (ls : List Listener)
    (h : getBucket s.listeners e = some ls) :
    decodeU32 (encodeU32 v) = some v ∧
    (emit s e (some (encodeU32 v))).2 =
      Except.ok ((ls.filter fun l => l.limit ≠ some 0).map
        fun l => (l.id, encodeU32 v)) ∧
    (∀ p ∈ ((ls.filter fun l => l.limit ≠ some 0).map
        fun l => (l.id, encodeU32 v)),
      parsedCallback cb p.2 = Except.ok (cb v)) := by
  have hrt : decodeU32 (encodeU32 v) = some v := decodeU32_encodeU32 v hv
  refine ⟨hrt, ?_, ?_⟩
  · rw [emit_dispatch s e (encodeU32 v) ls h]
    rfl
  · intro p hp
    simp only [List.mem_map] at hp
    obtain ⟨l, _, rfl⟩ := hp
    simp [parsedCallback, hrt]

/-- C8, witnessed at `v = 70000` on a one-listener registry with callback
`Nat.succ`. -/
theorem C8_roundtrip_u32_witness :
    70000 < 4294967296 ∧
    getBucket (⟨[("E", [⟨0, none⟩])]⟩ : EventEmitter).listeners "E" =
      some [⟨0, none⟩] ∧
    (decodeU32 (encodeU32 70000) = some 70000 ∧
      (emit (⟨[("E", [⟨0, none⟩])]⟩ : EventEmitter) "E" (some (encodeU32 70000))).2 =
        Except.ok (([(⟨0, none⟩ : Listener)].filter
            fun l => l.limit ≠ some 0).map fun l => (l.id, encodeU32 70000)) ∧
      (∀ p ∈ (([(⟨0, none⟩ : Listener)].filter
          fun l => l.limit ≠ some 0).map fun l => (l.id, encodeU32 70000)),
        parsedCallback Nat.succ p.2 = Except.ok (Nat.succ 70000))) :=
  ⟨by decide, by decide,
    C8_roundtrip_u32 Nat.succ 70000 (by decide) ⟨[("E", [⟨0, none⟩])]⟩ "E"
      [⟨0, none⟩] (by decide)⟩

/-- C9: over every sequence of client operations run from a fresh registry
(with `Uuid::new_v4()` modelled as a fresh-id supply), the ids issued by the
registrations are pairwise distinct, and at every reachable instant each
listener id occurs at most once across all event buckets of the registry. -/
theorem C9_issued_ids_unique (ops : List Op) :
    (runOps EventEmitter.new 0 ops).2.2.Nodup ∧
    ∀ id, countId (runOps EventEmitter.new 0 ops).1 id ≤ 1 := by
  have h := runOps_spec ops EventEmitter.new 0
    (fun id => by simp [countId, countIdList, EventEmitter.new])
    (fun id _ => rfl)
  exact ⟨h.2.1, h.1⟩

/-- C10: an emit on event `e` leaves the bucket of every other event name
untouched (same listeners, order, ids and limits), whatever the encoding
outcome; likewise a registration on `e` modifies no other event's bucket. -/
theorem C10_frame_other_buckets_untouched (s : EventEmitter) (e e2 : String)
    (h : e2 ≠ e) :
    (∀ enc, getBucket (emit s e enc).1.listeners e2 = getBucket s.listeners e2) ∧
    (∀ lim i, getBucket (on_limited s e lim i).listeners e2 =
      getBucket s.listeners e2) := by
  constructor
  · intro enc
    cases hb : getBucket s.listeners e with
    | none => rw [emit_bucket_absent s e enc hb]
    | some ls =>
      cases enc with
      | none => rw [emit_encode_panic s e ls hb]
      | some b =>
        rw [emit_dispatch s e b ls hb]
        exact getBucket_setBucket_ne s.listeners e e2 (emitBucket ls) h
  · intro lim i
    exact getBucket_insertListener_ne s.listeners e e2 ⟨i, lim⟩ h

/-- C10, witnessed on a registry with buckets `"a"` and `"b"`. -/
theorem C10_frame_other_buckets_untouched_witness :
    ("b" ≠ "a") ∧
    ((∀ enc,
        getBucket
            (emit (⟨[("a", [⟨0, some 1⟩]), ("b", [⟨1, none⟩])]⟩ : EventEmitter)
              "a" enc).1.listeners "b" =
          getBucket
            (⟨[("a", [⟨0, some 1⟩]), ("b", [⟨1, none⟩])]⟩ : EventEmitter).listeners
            "b") ∧
      (∀ lim i,
        getBucket
            (on_limited (⟨[("a", [⟨0, some 1⟩]), ("b", [⟨1, none⟩])]⟩ : EventEmitter)
              "a" lim i).listeners "b" =
          getBucket
            (⟨[("a", [⟨0, some 1⟩]), ("b", [⟨1, none⟩])]⟩ : EventEmitter).listeners
            "b")) :=
  ⟨by decide,
    C10_frame_other_buckets_untouched
      ⟨[("a", [⟨0, some 1⟩]), ("b", [⟨1, none⟩])]⟩ "a" "b" (by decide)⟩

end EventEmitterRs
